import Mathlib

/-
Shallow embedding of the techsisters-bookclub application logic
(FastAPI + SQLAlchemy, files src/app/routers/admin.py, books.py, auth.py
and src/app/models.py), together with theorems checking the natural
language specification against this embedding.

Database tables are embedded as Lean lists of records, one record per row;
`Query.first()` becomes `List.find?` on the row list, ORM in-place mutation
of the first row matched by a query becomes `updateFirstBy`, commit/rollback
semantics become: a handler that raises `HTTPException` leaves the table
lists unchanged (the `run*` wrappers below return the original state on
error, matching the fact that the exception aborts the request before
`db.commit()`).  Server-managed timestamp columns (`created_at`,
`updated_at`) and audit-log rows, which no claim is about, are omitted;
`datetime.utcnow()` is modelled as an abstract tick passed in as `now`.
-/

namespace BookClub

/-- Row of the `books` table (src/app/models.py, class Book).
`completed_date` is `Option Nat`: `none` is SQL NULL, `some t` a timestamp. -/
structure Book where
  id : Nat
  title : String
  pdf_url : String
  cover_image_url : Option String
  total_chapters : Option Int
  status : String
  current_chapters : Option String
  completed_date : Option Nat
deriving DecidableEq, Repr

/-- Row of the `reading_progress` table (src/app/models.py, class
ReadingProgress); the surrogate `id` column plays no role in any claim and
is omitted, the unique constraint on (user_id, book_id) is stated as a
hypothesis where needed. -/
structure ProgressRow where
  user_id : Nat
  book_id : Nat
  chapter : Int
deriving DecidableEq, Repr

/-- Row of the `book_suggestions` table (src/app/models.py, class
BookSuggestion). -/
structure Suggestion where
  id : Nat
  title : String
  pdf_url : String
  status : String
  user_id : Nat
deriving DecidableEq, Repr

/-- Row of the `users` table (src/app/models.py, class User); only the
fields the admin-management claims mention are kept. -/
structure UserRec where
  id : Nat
  name : String
  email : String
  is_admin : Bool
deriving DecidableEq, Repr

/-- Model of Python `str.strip()`: drop leading and trailing whitespace
characters.  (Defined over the character list so that it evaluates by
kernel reduction; Python strips the unicode whitespace class, of which
`Char.isWhitespace` covers the occurring cases.) -/
def pyStrip (s : String) : String :=
  ⟨((s.data.dropWhile Char.isWhitespace).reverse.dropWhile Char.isWhitespace).reverse⟩

/-- Model of Python `str.lower()`: lowercase every character. -/
def pyLower (s : String) : String :=
  ⟨s.data.map Char.toLower⟩

/-- ORM mutation of the first row matched by a query: update the first
element satisfying `p` with `f`, leave everything else in place. -/
def updateFirstBy (p : α → Bool) (f : α → α) : List α → List α
  | [] => []
  | a :: rest => if p a then f a :: rest else a :: updateFirstBy p f rest

theorem updateFirstBy_nil (p : α → Bool) (f : α → α) :
    updateFirstBy p f [] = [] := rfl

theorem updateFirstBy_cons_pos (p : α → Bool) (f : α → α) (a : α) (l : List α)
    (h : p a = true) : updateFirstBy p f (a :: l) = f a :: l := by
  simp [updateFirstBy, h]

theorem updateFirstBy_cons_neg (p : α → Bool) (f : α → α) (a : α) (l : List α)
    (h : p a = false) : updateFirstBy p f (a :: l) = a :: updateFirstBy p f l := by
  simp [updateFirstBy, h]

theorem updateFirstBy_append_none (p : α → Bool) (f : α → α) (l1 l2 : List α)
    (h : ∀ a ∈ l1, p a = false) :
    updateFirstBy p f (l1 ++ l2) = l1 ++ updateFirstBy p f l2 := by
  induction l1 with
  | nil => rfl
  | cons a rest ih =>
    have ha : p a = false := h a (List.mem_cons_self a rest)
    simp [updateFirstBy, ha, ih fun b hb => h b (List.mem_cons_of_mem a hb)]

/-- `updateFirstBy` either leaves the list unchanged or rewrites exactly one
element, the first one satisfying `p`. -/
theorem updateFirstBy_eq_or (p : α → Bool) (f : α → α) (l : List α) :
    updateFirstBy p f l = l ∨
    ∃ l1 a l2, l = l1 ++ a :: l2 ∧ p a = true ∧ (∀ b ∈ l1, p b = false) ∧
      updateFirstBy p f l = l1 ++ f a :: l2 := by
  induction l with
  | nil => exact Or.inl rfl
  | cons a rest ih =>
    by_cases ha : p a = true
    · exact Or.inr ⟨[], a, rest, rfl, ha, by simp, updateFirstBy_cons_pos p f a rest ha⟩
    · have ha' : p a = false := by simpa using ha
      rcases ih with h | ⟨l1, b, l2, hsplit, hb, hnone, hupd⟩
      · exact Or.inl (by simp [updateFirstBy, ha', h])
      · refine Or.inr ⟨a :: l1, b, l2, by simp [hsplit], hb, ?_, ?_⟩
        · intro c hc
          rcases List.mem_cons.mp hc with rfl | hc
          · exact ha'
          · exact hnone c hc
        · simp [updateFirstBy, ha', hupd]

theorem find?_append_none (p : α → Bool) (l1 l2 : List α)
    (h : ∀ a ∈ l1, p a = false) :
    List.find? p (l1 ++ l2) = List.find? p l2 := by
  induction l1 with
  | nil => rfl
  | cons a rest ih =>
    have ha : p a = false := h a (List.mem_cons_self a rest)
    simp [List.find?, ha, ih fun b hb => h b (List.mem_cons_of_mem a hb)]

/-- Booleans: a list where no element has status "current" has
`countP` for that status equal to zero. -/
theorem countP_eq_zero_of_none (p : α → Bool) (l : List α)
    (h : ∀ a ∈ l, p a = false) : l.countP p = 0 :=
  List.countP_eq_zero.mpr (by intro a ha; simp [h a ha])

-- ===== POST /admin/books/{book_id}/set-current =====
-- (src/app/routers/admin.py, set_current_book, lines 156-208)

/-- Embedding of `set_current_book`: refuse with HTTP 400 when a book with
status "current" exists; look the target up among the queued books (404 if
absent); otherwise set its status to "current", store the chapter-range
label and, when a non-empty cover URL was supplied (Python truthiness of
the optional form field), the cover URL.  The error payload is the HTTP
status code. -/
def set_current_book (books : List Book) (book_id : Nat) (current_chapters : String)
    (cover_image_url : Option String) : Except Nat (List Book) :=
  match books.find? (fun b => b.status == "current") with
  | some _ => .error 400
  | none =>
    match books.find? (fun b => b.id == book_id && b.status == "queued") with
    | none => .error 404
    | some _ =>
      .ok (updateFirstBy (fun b => b.id == book_id && b.status == "queued")
        (fun b =>
          let b1 := { b with status := "current", current_chapters := some current_chapters }
          match cover_image_url with
          | some url => if url ≠ "" then { b1 with cover_image_url := some url } else b1
          | none => b1)
        books)

/-- Database state after the `set_current_book` request: on `HTTPException`
the transaction is never committed, so the table is unchanged. -/
def runSetCurrent (books : List Book) (book_id : Nat) (current_chapters : String)
    (cover_image_url : Option String) : List Book :=
  match set_current_book books book_id current_chapters cover_image_url with
  | .ok bs => bs
  | .error _ => books

theorem mem_implies_find?_current_isSome (books : List Book) (cb : Book)
    (hm : cb ∈ books) (hc : cb.status = "current") :
    (books.find? (fun b => b.status == "current")).isSome :=
  List.find?_isSome.mpr ⟨cb, hm, by simp [hc]⟩

/-- Claim C1: the single-current-book invariant.  If at most one book has
status "current" then this still holds after a `set_current_book` request,
and whenever some book already has status "current" the request fails with
HTTP 400 (Conflict) and leaves the books table (every row, all fields)
unchanged. -/
theorem C1_single_current_invariant (books : List Book) (book_id : Nat)
    (cc : String) (cov : Option String)
    (hinv : books.countP (fun b => b.status == "current") ≤ 1) :
    (runSetCurrent books book_id cc cov).countP (fun b => b.status == "current") ≤ 1
    ∧ ∀ cb ∈ books, cb.status = "current" →
        set_current_book books book_id cc cov = .error 400
        ∧ runSetCurrent books book_id cc cov = books := by
  constructor
  · unfold runSetCurrent set_current_book
    cases hfc : books.find? (fun b => b.status == "current") with
    | some cb => simpa using hinv
    | none =>
      have hnone : ∀ b ∈ books, (b.status == "current") = false := by
        intro b hb
        simpa using List.find?_eq_none.mp hfc b hb
      cases hfq : books.find? (fun b => b.id == book_id && b.status == "queued") with
      | none => simpa using hinv
      | some bk =>
        simp only
        rcases updateFirstBy_eq_or (fun b => b.id == book_id && b.status == "queued")
          (fun b =>
            let b1 := { b with status := "current", current_chapters := some cc }
            match cov with
            | some url => if url ≠ "" then { b1 with cover_image_url := some url } else b1
            | none => b1) books with h | ⟨l1, a, l2, hsplit, _, _, hupd⟩
        · rw [h]; simpa using hinv
        · rw [hupd]
          have h1 : ∀ b ∈ l1, (b.status == "current") = false := by
            intro b hb; exact hnone b (by rw [hsplit]; exact List.mem_append_left _ hb)
          have h2 : ∀ b ∈ l2, (b.status == "current") = false := by
            intro b hb
            exact hnone b (by rw [hsplit]; exact List.mem_append_right _ (List.mem_cons_of_mem a hb))
          rw [List.countP_append, List.countP_cons]
          rw [countP_eq_zero_of_none _ l1 h1, countP_eq_zero_of_none _ l2 h2]
          cases cov with
          | none => simp
          | some url =>
            by_cases hu : url = "" <;> simp [hu]
  · intro cb hm hc
    have hsome := mem_implies_find?_current_isSome books cb hm hc
    unfold runSetCurrent set_current_book
    cases hfc : books.find? (fun b => b.status == "current") with
    | none => rw [hfc] at hsome; simp at hsome
    | some x => exact ⟨rfl, rfl⟩

/-- Witness for C1 at a concrete state: one current book, attempting to set
another book current fails with 400 and changes nothing. -/
theorem C1_single_current_invariant_witness :
    (runSetCurrent [⟨1, "A", "u", none, none, "current", none, none⟩,
      ⟨2, "B", "v", none, none, "queued", none, none⟩] 2 "Chapters 1-2" none).countP
        (fun b => b.status == "current") ≤ 1
    ∧ set_current_book [⟨1, "A", "u", none, none, "current", none, none⟩,
        ⟨2, "B", "v", none, none, "queued", none, none⟩] 2 "Chapters 1-2" none = .error 400
    ∧ runSetCurrent [⟨1, "A", "u", none, none, "current", none, none⟩,
        ⟨2, "B", "v", none, none, "queued", none, none⟩] 2 "Chapters 1-2" none =
      [⟨1, "A", "u", none, none, "current", none, none⟩,
        ⟨2, "B", "v", none, none, "queued", none, none⟩] := by
  have h := C1_single_current_invariant
    [⟨1, "A", "u", none, none, "current", none, none⟩,
      ⟨2, "B", "v", none, none, "queued", none, none⟩] 2 "Chapters 1-2" none (by decide)
  refine ⟨h.1, ?_, ?_⟩
  · exact (h.2 ⟨1, "A", "u", none, none, "current", none, none⟩ (by decide) rfl).1
  · exact (h.2 ⟨1, "A", "u", none, none, "current", none, none⟩ (by decide) rfl).2

-- ===== POST /admin/books/complete =====
-- (src/app/routers/admin.py, complete_current_book, lines 210-264)

/-- Embedding of `complete_current_book`: 404 when no book has status
"current"; otherwise every reading-progress row of the current book with
`chapter > 0 ∧ chapter ≠ -1` is set to -1, and the current book becomes
"completed" with `completed_date = now` and a cleared chapter-range label.
The ORM query plus per-row mutation over its results is the `List.map`
below: rows matching the filter are rewritten, all others kept as is. -/
def complete_current_book (now : Nat) (books : List Book) (progress : List ProgressRow) :
    Except Nat (List Book × List ProgressRow) :=
  match books.find? (fun b => b.status == "current") with
  | none => .error 404
  | some cb =>
    let progress1 := progress.map (fun p =>
      if p.book_id == cb.id && decide (0 < p.chapter) && !(p.chapter == -1) then
        { p with chapter := -1 }
      else p)
    let books1 := updateFirstBy (fun b => b.status == "current")
      (fun b => { b with
        status := "completed", completed_date := some now, current_chapters := none }) books
    .ok (books1, progress1)

/-- Claim C2: completing the unique current book marks it completed with a
completion timestamp and a cleared chapter-range label, force-sets every
progress row of that book with a positive chapter to -1, and leaves rows
with chapter 0 or -1 (and rows of other books) unchanged.  The state with
exactly one current book is given as the split `l1 ++ cb :: l2` with no
current book in `l1` or `l2`. -/
theorem C2_complete_current_book (now : Nat) (l1 l2 : List Book) (cb : Book)
    (progress : List ProgressRow)
    (hcb : cb.status = "current")
    (h1 : ∀ b ∈ l1, b.status ≠ "current") (h2 : ∀ b ∈ l2, b.status ≠ "current") :
    complete_current_book now (l1 ++ cb :: l2) progress =
      .ok (l1 ++ { cb with
             status := "completed", completed_date := some now, current_chapters := none } :: l2,
           progress.map (fun p =>
             if p.book_id = cb.id ∧ 0 < p.chapter then { p with chapter := -1 } else p))
    ∧ ∀ p : ProgressRow, p.chapter = 0 ∨ p.chapter = -1 →
        (if p.book_id = cb.id ∧ 0 < p.chapter then { p with chapter := -1 } else p) = p := by
  have h1f : ∀ b ∈ l1, (b.status == "current") = false := by
    intro b hb; simpa using h1 b hb
  have hfind : (l1 ++ cb :: l2).find? (fun b => b.status == "current") = some cb := by
    rw [find?_append_none _ l1 (cb :: l2) h1f]
    simp [List.find?, hcb]
  constructor
  · unfold complete_current_book
    rw [hfind]
    simp only [Except.ok.injEq, Prod.mk.injEq]
    constructor
    · rw [updateFirstBy_append_none _ _ l1 (cb :: l2) h1f,
        updateFirstBy_cons_pos _ _ cb l2 (by simp [hcb])]
    · apply List.map_congr_left
      intro p _
      by_cases hb : p.book_id = cb.id
      · by_cases hc : 0 < p.chapter
        · have hne : ¬(p.chapter = -1) := by omega
          simp [hb, hc, hne]
        · simp [hb, hc]
      · simp [hb]
  · intro p hp
    have : ¬(0 < p.chapter) := by rcases hp with h | h <;> omega
    simp [this]

/-- Witness for C2 at a concrete state: one current book with three
progress rows at chapters 3, 0 and -1; the in-progress row is forced to
-1, the others are untouched. -/
theorem C2_complete_current_book_witness :
    complete_current_book 7 [⟨1, "A", "u", none, none, "current", some "Chapters 1-2", none⟩]
      [⟨10, 1, 3⟩, ⟨11, 1, 0⟩, ⟨12, 1, -1⟩] =
      .ok ([⟨1, "A", "u", none, none, "completed", none, some 7⟩],
           [⟨10, 1, -1⟩, ⟨11, 1, 0⟩, ⟨12, 1, -1⟩]) := by
  have h := C2_complete_current_book 7 [] []
    ⟨1, "A", "u", none, none, "current", some "Chapters 1-2", none⟩
    [⟨10, 1, 3⟩, ⟨11, 1, 0⟩, ⟨12, 1, -1⟩] rfl (by simp) (by simp)
  rw [show ([] : List Book) ++ ⟨1, "A", "u", none, none, "current", some "Chapters 1-2", none⟩ ::
    ([] : List Book) = [⟨1, "A", "u", none, none, "current", some "Chapters 1-2", none⟩] from rfl] at h
  rw [h.1]
  rfl

-- ===== PUT /admin/suggestions/{suggestion_id}/approve =====
-- (src/app/routers/admin.py, approve_suggestion, lines 352-416)

/-- Embedding of `approve_suggestion`: 404 when no suggestion has the given
id, 400 when its status is not "pending", 400 when the cover URL is blank
after stripping; otherwise the suggestion becomes "approved" and one new
Book row with status "queued" copying title/pdf_url (and the stripped
cover) is inserted.  `newBookId` models the autoincrement primary key of
the inserted row. -/
def approve_suggestion (suggestions : List Suggestion) (books : List Book)
    (suggestion_id : Nat) (cover_image_url : String) (newBookId : Nat) :
    Except Nat (List Suggestion × List Book) :=
  match suggestions.find? (fun s => s.id == suggestion_id) with
  | none => .error 404
  | some s =>
    if s.status != "pending" then .error 400
    else if (pyStrip cover_image_url) == "" then .error 400
    else
      .ok (updateFirstBy (fun t => t.id == suggestion_id)
             (fun t => { t with status := "approved" }) suggestions,
           books ++ [⟨newBookId, s.title, s.pdf_url, some (pyStrip cover_image_url), none,
             "queued", none, none⟩])

/-- State after the `approve_suggestion` request (HTTPException leaves both
tables unchanged). -/
def runApprove (suggestions : List Suggestion) (books : List Book)
    (suggestion_id : Nat) (cover : String) (newBookId : Nat) :
    List Suggestion × List Book :=
  match approve_suggestion suggestions books suggestion_id cover newBookId with
  | .ok st => st
  | .error _ => (suggestions, books)

/-- Claim C3: approving a pending suggestion (with a non-blank cover URL)
marks exactly that suggestion "approved" and appends exactly one new Book
with status "queued" and the suggestion's title and pdf_url; approving a
suggestion whose status is not "pending" fails with HTTP 400 and changes
neither the suggestions nor the books table.  The suggestion list is split
as `l1 ++ s :: l2` with no earlier row carrying the target id. -/
theorem C3_approve_suggestion (l1 l2 : List Suggestion) (s : Suggestion)
    (books : List Book) (cover : String) (nid : Nat)
    (hids : ∀ t ∈ l1, t.id ≠ s.id) :
    (s.status = "pending" → (pyStrip cover) ≠ "" →
      approve_suggestion (l1 ++ s :: l2) books s.id cover nid =
        .ok (l1 ++ { s with status := "approved" } :: l2,
             books ++ [⟨nid, s.title, s.pdf_url, some (pyStrip cover), none, "queued", none, none⟩]))
    ∧ (s.status ≠ "pending" →
        approve_suggestion (l1 ++ s :: l2) books s.id cover nid = .error 400
        ∧ runApprove (l1 ++ s :: l2) books s.id cover nid = (l1 ++ s :: l2, books)) := by
  have hidf : ∀ t ∈ l1, (t.id == s.id) = false := by
    intro t ht; simpa using hids t ht
  have hfind : (l1 ++ s :: l2).find? (fun t => t.id == s.id) = some s := by
    rw [find?_append_none _ l1 (s :: l2) hidf]
    simp [List.find?]
  constructor
  · intro hp hc
    unfold approve_suggestion
    rw [hfind]
    have hcov : ((pyStrip cover) == "") = false := by simpa using hc
    simp only [hp, hcov]
    rw [updateFirstBy_append_none _ _ l1 (s :: l2) hidf,
      updateFirstBy_cons_pos _ _ s l2 (by simp)]
    simp
  · intro hp
    have hp' : (s.status != "pending") = true := by simpa using hp
    unfold runApprove approve_suggestion
    rw [hfind]
    simp only [hp']
    exact ⟨rfl, rfl⟩

/-- Witness for C3 at concrete states: a pending suggestion is approved and
one queued book appears; an already-approved suggestion yields 400 and no
change. -/
theorem C3_approve_suggestion_witness :
    approve_suggestion [⟨5, "T", "p", "pending", 9⟩] [] 5 " c " 1 =
      .ok ([⟨5, "T", "p", "approved", 9⟩],
           [⟨1, "T", "p", some "c", none, "queued", none, none⟩])
    ∧ approve_suggestion [⟨5, "T", "p", "approved", 9⟩] [] 5 "c" 1 = .error 400
    ∧ runApprove [⟨5, "T", "p", "approved", 9⟩] [] 5 "c" 1 =
        ([⟨5, "T", "p", "approved", 9⟩], []) := by
  refine ⟨?_, ?_, ?_⟩
  · have h := (C3_approve_suggestion [] [] ⟨5, "T", "p", "pending", 9⟩ [] " c " 1
      (by simp)).1 rfl (by decide)
    simpa using h
  · exact ((C3_approve_suggestion [] [] ⟨5, "T", "p", "approved", 9⟩ [] "c" 1
      (by simp)).2 (by decide)).1
  · exact ((C3_approve_suggestion [] [] ⟨5, "T", "p", "approved", 9⟩ [] "c" 1
      (by simp)).2 (by decide)).2

-- ===== PUT /admin/users/{user_id}/demote =====
-- (src/app/routers/admin.py, demote_from_admin, lines 575-630)

/-- Number of admin users, `db.query(func.count(User.id)).filter(User.is_admin == True)`. -/
def countAdmins (users : List UserRec) : Nat :=
  users.countP (fun u => u.is_admin)

/-- Embedding of `demote_from_admin`: the caller (`adminId`, resolved by
`require_admin`) demotes `userId`.  Self-demotion fails with 400 first;
then an unknown user id fails with 404; a non-admin target fails with 400;
if at most one admin exists the request fails with 400; otherwise the
target's `is_admin` flag is cleared. -/
def demote_from_admin (users : List UserRec) (adminId userId : Nat) :
    Except Nat (List UserRec) :=
  if userId == adminId then .error 400
  else
    match users.find? (fun u => u.id == userId) with
    | none => .error 404
    | some u =>
      if !u.is_admin then .error 400
      else if countAdmins users ≤ 1 then .error 400
      else .ok (updateFirstBy (fun v => v.id == userId)
        (fun v => { v with is_admin := false }) users)

/-- Users table after the `demote_from_admin` request. -/
def runDemote (users : List UserRec) (adminId userId : Nat) : List UserRec :=
  match demote_from_admin users adminId userId with
  | .ok us => us
  | .error _ => users

/-- Claim C4: when exactly one user has `is_admin = true`, demoting that
user fails with HTTP 400 and leaves every user's `is_admin` flag (the
whole table) unchanged, whoever the caller is; and self-demotion fails
with HTTP 400 and leaves the table unchanged regardless of the number of
admins. -/
theorem C4_demote_last_admin_or_self (users : List UserRec) (adminId : Nat) (u : UserRec)
    (hfind : users.find? (fun v => v.id == u.id) = some u)
    (hadm : u.is_admin = true) (hone : countAdmins users = 1) :
    (demote_from_admin users adminId u.id = .error 400
      ∧ runDemote users adminId u.id = users)
    ∧ ∀ (us : List UserRec) (a : Nat),
        demote_from_admin us a a = .error 400 ∧ runDemote us a a = us := by
  constructor
  · unfold runDemote demote_from_admin
    by_cases hself : u.id = adminId
    · simp [hself]
    · have hself' : (u.id == adminId) = false := by simpa using hself
      rw [hself', hfind]
      simp [hadm, hone]
  · intro us a
    unfold runDemote demote_from_admin
    simp

/-- Witness for C4 at a concrete state: two users, one admin; demoting the
sole admin fails with 400 and the table is unchanged, and so does a
self-demotion. -/
theorem C4_demote_last_admin_or_self_witness :
    (demote_from_admin [⟨1, "a", "a@x", true⟩, ⟨2, "b", "b@x", false⟩] 2 1 = .error 400
      ∧ runDemote [⟨1, "a", "a@x", true⟩, ⟨2, "b", "b@x", false⟩] 2 1 =
          [⟨1, "a", "a@x", true⟩, ⟨2, "b", "b@x", false⟩])
    ∧ demote_from_admin [⟨1, "a", "a@x", true⟩, ⟨2, "b", "b@x", true⟩] 1 1 = .error 400
    ∧ runDemote [⟨1, "a", "a@x", true⟩, ⟨2, "b", "b@x", true⟩] 1 1 =
        [⟨1, "a", "a@x", true⟩, ⟨2, "b", "b@x", true⟩] := by
  have h := C4_demote_last_admin_or_self [⟨1, "a", "a@x", true⟩, ⟨2, "b", "b@x", false⟩] 2
    ⟨1, "a", "a@x", true⟩ (by decide) rfl (by decide)
  exact ⟨h.1, h.2 [⟨1, "a", "a@x", true⟩, ⟨2, "b", "b@x", true⟩] 1⟩

-- ===== PUT /books/progress =====
-- (src/app/routers/books.py, update_progress, lines 122-168, and
-- src/app/schemas.py, ProgressUpdate with chapter ≥ -1)

/-- Embedding of `update_progress` for member `uid` and book `bid`:
pydantic validation rejects `chapter < -1` with HTTP 422; a `book_id`
matching no Book row fails with 404; otherwise the unique
(user_id, book_id) progress row is updated in place when present and a new
row is appended when absent. -/
def update_progress (books : List Book) (progress : List ProgressRow)
    (uid bid : Nat) (chapter : Int) : Except Nat (List ProgressRow) :=
  if chapter < -1 then .error 422
  else
    match books.find? (fun bk => bk.id == bid) with
    | none => .error 404
    | some _ =>
      if (progress.find? (fun r => r.user_id == uid && r.book_id == bid)).isSome then
        .ok (updateFirstBy (fun r => r.user_id == uid && r.book_id == bid)
          (fun r => { r with chapter := chapter }) progress)
      else
        .ok (progress ++ [⟨uid, bid, chapter⟩])

/-- Progress table after the `update_progress` request (errors leave it
unchanged). -/
def runUpdateProgress (books : List Book) (progress : List ProgressRow)
    (uid bid : Nat) (chapter : Int) : List ProgressRow :=
  match update_progress books progress uid bid chapter with
  | .ok p => p
  | .error _ => progress

/-- Number of progress rows for the (member, book) pair. -/
def countPair (progress : List ProgressRow) (uid bid : Nat) : Nat :=
  progress.countP (fun r => r.user_id == uid && r.book_id == bid)

/-- The (unique) progress row of the pair, as the query `first()` sees it. -/
def findPair (progress : List ProgressRow) (uid bid : Nat) : Option ProgressRow :=
  progress.find? (fun r => r.user_id == uid && r.book_id == bid)

theorem countP_updateFirstBy_of_pred_preserved (p : α → Bool) (f : α → α)
    (l : List α) (hf : ∀ a, p a = true → p (f a) = true) :
    (updateFirstBy p f l).countP p = l.countP p := by
  induction l with
  | nil => rfl
  | cons a rest ih =>
    by_cases ha : p a = true
    · rw [updateFirstBy_cons_pos p f a rest ha]
      simp [List.countP_cons, ha, hf a ha]
    · have ha' : p a = false := by simpa using ha
      rw [updateFirstBy_cons_neg p f a rest ha']
      simp [List.countP_cons, ha', ih]

theorem find?_updateFirstBy (p : α → Bool) (f : α → α) (l : List α) (a : α)
    (hfind : l.find? p = some a) (hf : p (f a) = true) :
    (updateFirstBy p f l).find? p = some (f a) := by
  induction l with
  | nil => simp [List.find?] at hfind
  | cons b rest ih =>
    by_cases hb : p b = true
    · rw [List.find?_cons_of_pos _ hb] at hfind
      cases hfind
      rw [updateFirstBy_cons_pos p f a rest hb]
      exact List.find?_cons_of_pos _ hf
    · have hb' : p b = false := by simpa using hb
      rw [List.find?_cons_of_neg _ hb] at hfind
      rw [updateFirstBy_cons_neg p f b rest hb', List.find?_cons_of_neg _ hb]
      exact ih hfind

/-- One successful `update_progress` call leaves exactly one row for the
pair (given at most one before) and that row holds the written value. -/
theorem runUpdateProgress_step (books : List Book) (progress : List ProgressRow)
    (uid bid : Nat) (c : Int) (hc : -1 ≤ c)
    (hbk : (books.find? (fun bk => bk.id == bid)).isSome)
    (hcount : countPair progress uid bid ≤ 1) :
    countPair (runUpdateProgress books progress uid bid c) uid bid = 1
    ∧ findPair (runUpdateProgress books progress uid bid c) uid bid = some ⟨uid, bid, c⟩ := by
  have hc' : ¬(c < -1) := by omega
  rcases Option.isSome_iff_exists.mp hbk with ⟨bk, hbkeq⟩
  unfold runUpdateProgress update_progress
  rw [if_neg hc', hbkeq]
  cases hex : (progress.find? (fun r => r.user_id == uid && r.book_id == bid)) with
  | none =>
    simp only [hex, Option.isSome_none, Bool.false_eq_true, if_false]
    have hnone : ∀ r ∈ progress, (r.user_id == uid && r.book_id == bid) = false := by
      intro r hr; simpa using List.find?_eq_none.mp hex r hr
    constructor
    · unfold countPair
      rw [List.countP_append, countP_eq_zero_of_none _ progress hnone]
      simp
    · unfold findPair
      rw [find?_append_none _ progress _ hnone]
      simp [List.find?]
  | some r0 =>
    have hr0 : (r0.user_id == uid && r0.book_id == bid) = true := by
      have h0 := List.find?_some hex; exact h0
    obtain ⟨huid, hbid⟩ : r0.user_id = uid ∧ r0.book_id = bid := by simpa using hr0
    simp only [hex, Option.isSome_some, if_true]
    have hpres : ∀ r : ProgressRow, (r.user_id == uid && r.book_id == bid) = true →
        (({ r with chapter := c } : ProgressRow).user_id == uid &&
          ({ r with chapter := c } : ProgressRow).book_id == bid) = true := by
      intro r hr; simpa using hr
    constructor
    · unfold countPair
      rw [countP_updateFirstBy_of_pred_preserved _ _ progress hpres]
      have hge : 1 ≤ countPair progress uid bid := by
        unfold countPair
        have : r0 ∈ progress := List.mem_of_find?_eq_some hex
        calc 1 = [r0].countP (fun r => r.user_id == uid && r.book_id == bid) := by
              simp [List.countP_cons, hr0]
          _ ≤ _ := List.Sublist.countP_le _ (List.singleton_sublist.mpr this)
      unfold countPair at hcount hge
      omega
    · unfold findPair
      have := find?_updateFirstBy (fun r => r.user_id == uid && r.book_id == bid)
        (fun r => { r with chapter := c }) progress r0 hex (hpres r0 hr0)
      rw [this]
      simp only [Option.some.injEq]
      cases r0
      simp_all

/-- Applying `updateFirstBy` twice with a function that preserves the
predicate and is idempotent on matching elements is the same as applying
it once. -/
theorem updateFirstBy_idem (p : α → Bool) (f : α → α) (l : List α)
    (hf : ∀ a, p a = true → p (f a) = true ∧ f (f a) = f a) :
    updateFirstBy p f (updateFirstBy p f l) = updateFirstBy p f l := by
  induction l with
  | nil => rfl
  | cons a rest ih =>
    by_cases ha : p a = true
    · rw [updateFirstBy_cons_pos p f a rest ha,
        updateFirstBy_cons_pos p f (f a) rest (hf a ha).1, (hf a ha).2]
    · have ha' : p a = false := by simpa using ha
      rw [updateFirstBy_cons_neg p f a rest ha', updateFirstBy_cons_neg p f a _ ha', ih]

/-- Characterization of one successful `update_progress` call: update in
place when a row for the pair exists, append otherwise. -/
theorem runUpdateProgress_char (books : List Book) (s : List ProgressRow)
    (uid bid : Nat) (c : Int) (hc : -1 ≤ c)
    (hbk : (books.find? (fun bk => bk.id == bid)).isSome) :
    runUpdateProgress books s uid bid c =
      match s.find? (fun r => r.user_id == uid && r.book_id == bid) with
      | none => s ++ [⟨uid, bid, c⟩]
      | some _ => updateFirstBy (fun r => r.user_id == uid && r.book_id == bid)
          (fun r => { r with chapter := c }) s := by
  have hc' : ¬(c < -1) := by omega
  rcases Option.isSome_iff_exists.mp hbk with ⟨bk, hbkeq⟩
  unfold runUpdateProgress update_progress
  rw [if_neg hc', hbkeq]
  cases hex : (s.find? (fun r => r.user_id == uid && r.book_id == bid)) with
  | none => simp [hex]
  | some r0 => simp [hex]

/-- Repeating an `update_progress` call with the same chapter value leaves
the table unchanged. -/
theorem runUpdateProgress_idem (books : List Book) (s : List ProgressRow)
    (uid bid : Nat) (c : Int) (hc : -1 ≤ c)
    (hbk : (books.find? (fun bk => bk.id == bid)).isSome) :
    runUpdateProgress books (runUpdateProgress books s uid bid c) uid bid c =
      runUpdateProgress books s uid bid c := by
  have hchar1 := runUpdateProgress_char books s uid bid c hc hbk
  have hpres : ∀ r : ProgressRow, (r.user_id == uid && r.book_id == bid) = true →
      (({ r with chapter := c } : ProgressRow).user_id == uid &&
        ({ r with chapter := c } : ProgressRow).book_id == bid) = true ∧
      ({ ({ r with chapter := c } : ProgressRow) with chapter := c } : ProgressRow) =
        { r with chapter := c } := by
    intro r hr; exact ⟨by simpa using hr, rfl⟩
  cases hex : (s.find? (fun r => r.user_id == uid && r.book_id == bid)) with
  | none =>
    have hnone : ∀ r ∈ s, (r.user_id == uid && r.book_id == bid) = false := by
      intro r hr; simpa using List.find?_eq_none.mp hex r hr
    rw [hchar1, hex] at *
    simp only at *
    have hfind2 : (s ++ [(⟨uid, bid, c⟩ : ProgressRow)]).find?
        (fun r => r.user_id == uid && r.book_id == bid) = some ⟨uid, bid, c⟩ := by
      rw [find?_append_none _ s _ hnone]; simp [List.find?]
    rw [runUpdateProgress_char books _ uid bid c hc hbk, hfind2]
    simp only
    rw [updateFirstBy_append_none _ _ s _ hnone,
      updateFirstBy_cons_pos _ _ _ _ (by simp)]
  | some r0 =>
    have hr0 : (r0.user_id == uid && r0.book_id == bid) = true := by
      have h0 := List.find?_some hex; exact h0
    rw [hchar1, hex]
    simp only
    have hfind2 := find?_updateFirstBy (fun r => r.user_id == uid && r.book_id == bid)
      (fun r => { r with chapter := c }) s r0 hex (hpres r0 hr0).1
    rw [runUpdateProgress_char books _ uid bid c hc hbk, hfind2]
    simp only
    exact updateFirstBy_idem _ _ s hpres

/-- Folding a nonempty sequence of valid calls: exactly one row for the
pair, holding the last value of the sequence. -/
theorem runUpdateProgress_foldl (books : List Book) (uid bid : Nat) (chs : List Int) :
    ∀ init : List ProgressRow,
      (books.find? (fun bk => bk.id == bid)).isSome →
      countPair init uid bid ≤ 1 → (∀ c ∈ chs, -1 ≤ c) → chs ≠ [] →
      countPair (chs.foldl (fun s c => runUpdateProgress books s uid bid c) init) uid bid = 1
      ∧ ∃ v, chs.getLast? = some v ∧
          findPair (chs.foldl (fun s c => runUpdateProgress books s uid bid c) init) uid bid =
            some ⟨uid, bid, v⟩ := by
  induction chs with
  | nil => intro init _ _ _ hne; exact absurd rfl hne
  | cons c rest ih =>
    intro init hbk hcount hvalid _
    have hc : -1 ≤ c := hvalid c (List.mem_cons_self c rest)
    have hstep := runUpdateProgress_step books init uid bid c hc hbk hcount
    cases rest with
    | nil =>
      simp only [List.foldl_cons, List.foldl_nil]
      exact ⟨hstep.1, c, rfl, hstep.2⟩
    | cons c2 rest2 =>
      have ih2 := ih (runUpdateProgress books init uid bid c) hbk
        (le_of_eq hstep.1) (fun x hx => hvalid x (List.mem_cons_of_mem c hx)) (by simp)
      simp only [List.foldl_cons] at ih2 ⊢
      refine ⟨ih2.1, ?_⟩
      rcases ih2.2 with ⟨v, hv, hfind⟩
      exact ⟨v, by rw [List.getLast?_cons_cons]; exact hv, hfind⟩

/-- Claim C5: for any finite sequence of `update_progress` calls for one
(member, book) pair (book existing, chapters in {-1} ∪ {0,1,2,…}, and at
most one row for the pair initially, per the unique constraint), exactly
one progress row for the pair remains and it holds the last written value;
a repeated call with the same value is a no-op on the table (idempotence),
so a differing value overwrites the single row rather than adding one. -/
theorem C5_progress_upsert (books : List Book) (init : List ProgressRow)
    (uid bid : Nat) (chs : List Int)
    (hbk : (books.find? (fun bk => bk.id == bid)).isSome)
    (hcount : countPair init uid bid ≤ 1)
    (hvalid : ∀ c ∈ chs, -1 ≤ c) (hne : chs ≠ []) :
    (countPair (chs.foldl (fun s c => runUpdateProgress books s uid bid c) init) uid bid = 1
      ∧ ∃ v, chs.getLast? = some v ∧
          findPair (chs.foldl (fun s c => runUpdateProgress books s uid bid c) init) uid bid =
            some ⟨uid, bid, v⟩)
    ∧ ∀ (s : List ProgressRow) (c : Int), -1 ≤ c →
        runUpdateProgress books (runUpdateProgress books s uid bid c) uid bid c =
          runUpdateProgress books s uid bid c :=
  ⟨runUpdateProgress_foldl books uid bid chs init hbk hcount hvalid hne,
   fun s c hc => runUpdateProgress_idem books s uid bid c hc hbk⟩

/-- Witness for C5 at a concrete state: member 7 writes chapters 2, 2, 5 on
book 1 starting from an empty table; one row remains, holding 5, and the
repeated write of 2 was a no-op. -/
theorem C5_progress_upsert_witness :
    (countPair ([(2 : Int), 2, 5].foldl
        (fun s c => runUpdateProgress [⟨1, "A", "u", none, none, "current", none, none⟩] s 7 1 c)
        []) 7 1 = 1
      ∧ ∃ v, [(2 : Int), 2, 5].getLast? = some v ∧
          findPair ([(2 : Int), 2, 5].foldl
            (fun s c =>
              runUpdateProgress [⟨1, "A", "u", none, none, "current", none, none⟩] s 7 1 c)
            []) 7 1 = some ⟨7, 1, v⟩)
    ∧ runUpdateProgress [⟨1, "A", "u", none, none, "current", none, none⟩]
        (runUpdateProgress [⟨1, "A", "u", none, none, "current", none, none⟩] [⟨7, 1, 2⟩] 7 1 2)
        7 1 2 =
      runUpdateProgress [⟨1, "A", "u", none, none, "current", none, none⟩] [⟨7, 1, 2⟩] 7 1 2 := by
  have h := C5_progress_upsert [⟨1, "A", "u", none, none, "current", none, none⟩] [] 7 1
    [(2 : Int), 2, 5] (by decide) (by decide) (by decide) (by decide)
  exact ⟨h.1, h.2 [⟨7, 1, 2⟩] 2 (by decide)⟩

/-- Claim C10: an `update_progress` call with a valid chapter but a
`book_id` matching no Book row fails with HTTP 404 (NotFound) and the
progress table is unchanged. -/
theorem C10_progress_unknown_book (books : List Book) (progress : List ProgressRow)
    (uid bid : Nat) (chapter : Int) (hc : -1 ≤ chapter)
    (hnob : ∀ bk ∈ books, bk.id ≠ bid) :
    update_progress books progress uid bid chapter = .error 404
    ∧ runUpdateProgress books progress uid bid chapter = progress := by
  have hc' : ¬(chapter < -1) := by omega
  have hnone : books.find? (fun bk => bk.id == bid) = none :=
    List.find?_eq_none.mpr (by intro bk hbk; simpa using hnob bk hbk)
  unfold runUpdateProgress update_progress
  rw [if_neg hc', hnone]
  exact ⟨rfl, rfl⟩

/-- Witness for C10 at a concrete state: writing progress for book id 9
when only book 1 exists yields 404 and the single existing progress row
survives untouched. -/
theorem C10_progress_unknown_book_witness :
    update_progress [⟨1, "A", "u", none, none, "current", none, none⟩] [⟨7, 1, 2⟩] 7 9 3 =
      .error 404
    ∧ runUpdateProgress [⟨1, "A", "u", none, none, "current", none, none⟩] [⟨7, 1, 2⟩] 7 9 3 =
      [⟨7, 1, 2⟩] :=
  C10_progress_unknown_book [⟨1, "A", "u", none, none, "current", none, none⟩] [⟨7, 1, 2⟩]
    7 9 3 (by decide) (by decide)

-- ===== Password hashing =====
-- (src/app/models.py, User.hash_password / User.verify_password,
-- lines 46-87; the bcrypt primitive itself is the external `bcrypt`
-- C library, not part of src/)

/-- Modelled from the spec: the bcrypt primitive (external library, not in
src/), per spec §4.1 a "deterministic-format, non-deterministic-output
one-way hash with embedded random salt".  A stored hash is either a
well-formed bcrypt hash embedding its salt and a digest of the password
bytes, or a malformed string.  The digest is idealized as a perfect
(injective) function of the password bytes; password bytes are the
character list of the string, standing in for its UTF-8 encoding (which is
injective). -/
inductive StoredHash where
  | bcrypt (salt : Nat) (digest : List Char)
  | malformed (raw : String)
deriving DecidableEq, Repr

/-- Modelled from the spec: the idealized bcrypt key-derivation digest. -/
def bcryptDigest (salt : Nat) (pw : List Char) : List Char := pw

/-- Modelled from the spec: `bcrypt.hashpw(password, gensalt())`, with the
randomly generated salt passed in explicitly. -/
def hashpw (pw : List Char) (salt : Nat) : StoredHash := .bcrypt salt (bcryptDigest salt pw)

/-- Modelled from the spec: `bcrypt.checkpw` re-derives the digest with the
salt embedded in the stored hash and compares; on a malformed stored hash
it raises (`ValueError`), modelled as `.error`. -/
def checkpw (pw : List Char) : StoredHash → Except Unit Bool
  | .bcrypt salt digest => .ok (bcryptDigest salt pw == digest)
  | .malformed _ => .error ()

/-- `password.encode("utf-8")` in models.py, as the character list. -/
def encodeUtf8 (s : String) : List Char := s.data

/-- Embedding of `User.verify_password`: call `bcrypt.checkpw` on the
encoded password and stored hash, and turn any raised error (malformed
hash, encoding failure) into `false`. -/
def verify_password (password_hash : StoredHash) (password : String) : Bool :=
  match checkpw (encodeUtf8 password) password_hash with
  | .ok b => b
  | .error _ => false

/-- Embedding of `User.hash_password`: hash with a fresh salt (the salt
chosen by `bcrypt.gensalt()` is universally quantified in the claim). -/
def hash_password (password : String) (salt : Nat) : StoredHash :=
  hashpw (encodeUtf8 password) salt

/-- Claim C6: for every non-empty password `p` and every salt the hash may
choose, `verify(p, hash(p))` is true; for every `q ≠ p`,
`verify(q, hash(p))` is false; and `verify` returns false rather than
raising when the stored hash is malformed. -/
theorem C6_password_verify (p q : String) (salt : Nat) (raw : String) (hp : p ≠ "") :
    verify_password (hash_password p salt) p = true
    ∧ (q ≠ p → verify_password (hash_password p salt) q = false)
    ∧ verify_password (.malformed raw) q = false := by
  refine ⟨?_, ?_, rfl⟩
  · simp [verify_password, hash_password, hashpw, checkpw, bcryptDigest, encodeUtf8]
  · intro hqp
    simp only [verify_password, hash_password, hashpw, checkpw, bcryptDigest, encodeUtf8]
    rw [beq_eq_false_iff_ne]
    intro h
    exact hqp (String.ext h)

/-- Witness for C6 at concrete inputs. -/
theorem C6_password_verify_witness :
    verify_password (hash_password "Secret1A" 3) "Secret1A" = true
    ∧ verify_password (hash_password "Secret1A" 3) "wrong" = false
    ∧ verify_password (.malformed "nothash") "wrong" = false := by
  have h := C6_password_verify "Secret1A" "wrong" 3 "nothash" (by decide)
  exact ⟨h.1, h.2.1 (by decide), h.2.2⟩

-- ===== GET /books/progress/community =====
-- (src/app/routers/books.py, get_community_progress, lines 194-267)

/-- Chapter-to-bucket mapping of `get_community_progress`, following the
source's if/elif chain in order. -/
def bucketLabel (c : Int) : String :=
  if c == -1 then "Completed"
  else if c == 0 then "Not Started"
  else if c ≤ 2 then "Chapters 1-2"
  else if c ≤ 4 then "Chapters 3-4"
  else if c ≤ 6 then "Chapters 5-6"
  else if c ≤ 8 then "Chapters 7-8"
  else "Chapter " ++ toString c ++ "+"

/-- `stats[key] = stats.get(key, 0) + 1` on a Python dict, embedded as an
insertion-ordered association list: an existing key keeps its position,
a new key is appended. -/
def bumpCount : List (String × Nat) → String → List (String × Nat)
  | [], k => [(k, 1)]
  | (k0, v) :: rest, k =>
    if k0 == k then (k0, v + 1) :: rest else (k0, v) :: bumpCount rest k

/-- The `stats` dict after the grouping loop, for the list of chapter
values of the current book's progress rows. -/
def groupStats (rows : List Int) : List (String × Nat) :=
  rows.foldl (fun st c => bumpCount st (bucketLabel c)) []

/-- `round(count / total * 100, 1)` in tenths of a percent: the exact
rational `1000 * count / total` rounded to the nearest integer, ties to
even (CPython `round` banker's rounding). -/
def pctTenths (count total : Nat) : Nat :=
  let q := 1000 * count
  let f := q / total
  let r := q % total
  if 2 * r < total then f
  else if total < 2 * r then f + 1
  else if f % 2 == 0 then f else f + 1

/-- One entry of the endpoint's `stats` list; `percentage` is held in
tenths of a percent (333 means 33.3). -/
structure BucketStat where
  chapter_range : String
  member_count : Nat
  percentage : Nat
deriving DecidableEq, Repr

/-- The fixed display order list of the source. -/
def bucketOrder : List String :=
  ["Not Started", "Chapters 1-2", "Chapters 3-4", "Chapters 5-6", "Chapters 7-8", "Completed"]

/-- Sort key of the source: `order.index(label) if label in order else 999`. -/
def sortKey (s : String) : Nat :=
  match bucketOrder.findIdx? (fun t => t == s) with
  | some i => i
  | none => 999

/-- Comparison used to sort the stats list by `sortKey`. -/
def statLE (a b : BucketStat) : Prop :=
  sortKey a.chapter_range ≤ sortKey b.chapter_range

instance : DecidableRel statLE := fun _ _ => Nat.decLe _ _

instance : IsTotal BucketStat statLE := ⟨fun _ _ => Nat.le_total _ _⟩

instance : IsTrans BucketStat statLE := ⟨fun _ _ _ hab hbc => Nat.le_trans hab hbc⟩

/-- Embedding of `get_community_progress` on the chapter values of the
current book's progress rows: empty result when there are no rows, else
group, attach count and percentage, and sort by `sortKey`.  Python's
`list.sort` is stable; `List.insertionSort` with the reflexive `statLE`
is stable as well (equal keys keep their order), so it computes the same
list.  Only the dynamic "Chapter N+" labels share a key anyway. -/
def get_community_progress (rows : List Int) : List BucketStat :=
  if rows.length == 0 then []
  else
    List.insertionSort statLE
      ((groupStats rows).map (fun kv => ⟨kv.1, kv.2, pctTenths kv.2 rows.length⟩))

/-- Counterexample to claim C7 as stated: with progress rows at chapters
{9, -1}, the returned buckets are Completed followed by "Chapter 9+", so
the dynamic bucket comes after Completed and Completed is not last. -/
theorem C7_completed_not_last_counterexample :
    (get_community_progress [9, -1]).map (fun b => b.chapter_range) =
      ["Completed", "Chapter 9+"]
    ∧ "Completed" ≠ "Chapter 9+" := by
  constructor
  · rfl
  · decide

/-- Claim C7 (amended): the stats list is sorted by the source's key, i.e.
the recognized buckets appear in the fixed order Not Started,
Chapters 1-2, 3-4, 5-6, 7-8, Completed (keys 0..5), and every
unrecognized (dynamic "Chapter N+") bucket sorts after all of them
(key 999), in unspecified relative order. -/
theorem C7_bucket_order (rows : List Int) :
    List.Pairwise statLE (get_community_progress rows)
    ∧ sortKey "Not Started" = 0 ∧ sortKey "Chapters 1-2" = 1
    ∧ sortKey "Chapters 3-4" = 2 ∧ sortKey "Chapters 5-6" = 3
    ∧ sortKey "Chapters 7-8" = 4 ∧ sortKey "Completed" = 5
    ∧ ∀ c : Int, 8 < c → sortKey (bucketLabel c) = 999 := by
  refine ⟨?_, rfl, rfl, rfl, rfl, rfl, rfl, ?_⟩
  · unfold get_community_progress
    by_cases h : rows.length == 0
    · simp [h]
    · simp only [h, Bool.false_eq_true, if_false]
      exact List.sorted_insertionSort statLE _
  · intro c hc
    have h1 : ¬(c == -1) = true := by simp; omega
    have h2 : ¬(c == 0) = true := by simp; omega
    have h3 : ¬(c ≤ 2) := by omega
    have h4 : ¬(c ≤ 4) := by omega
    have h5 : ¬(c ≤ 6) := by omega
    have h6 : ¬(c ≤ 8) := by omega
    have hl : bucketLabel c = "Chapter " ++ toString c ++ "+" := by
      unfold bucketLabel
      rw [if_neg h1, if_neg h2, if_neg h3, if_neg h4, if_neg h5, if_neg h6]
    rw [hl]
    have hne : ∀ t ∈ bucketOrder, (t == "Chapter " ++ toString c ++ "+") = false := by
      intro t ht
      rw [beq_eq_false_iff_ne]
      intro heq
      have hdata : t.data = ("Chapter " ++ toString c ++ "+").data := by rw [heq]
      rw [String.data_append, String.data_append] at hdata
      fin_cases ht <;> simp at hdata
    unfold sortKey
    rw [List.findIdx?_eq_none_iff.mpr hne]

/-- Witness for C7's ordering property at a concrete input. -/
theorem C7_bucket_order_witness :
    List.Pairwise statLE (get_community_progress [9, -1])
    ∧ sortKey (bucketLabel 9) = 999 := by
  have h := C7_bucket_order [9, -1]
  exact ⟨h.1, h.2.2.2.2.2.2.2 9 (by decide)⟩

/-- Claim C8: cohort stats on three progress rows at chapters {0, 2, -1}
are exactly Not Started 1 (33.3%), Chapters 1-2 1 (33.3%), Completed 1
(33.3%); and in general every returned bucket has a nonzero member count
(zero-member buckets are omitted) and its percentage is its count over
the total row count times 100, rounded to one decimal (in tenths). -/
theorem C8_cohort_stats :
    get_community_progress [0, 2, -1] =
      [⟨"Not Started", 1, 333⟩, ⟨"Chapters 1-2", 1, 333⟩, ⟨"Completed", 1, 333⟩]
    ∧ ∀ (rows : List Int), ∀ b ∈ get_community_progress rows,
        0 < b.member_count ∧ b.percentage = pctTenths b.member_count rows.length := by
  constructor
  · rfl
  · intro rows b hb
    have hpos : ∀ kv ∈ groupStats rows, 0 < kv.2 := by
      unfold groupStats
      suffices h : ∀ (l : List Int) (st : List (String × Nat)), (∀ kv ∈ st, 0 < kv.2) →
          ∀ kv ∈ l.foldl (fun st c => bumpCount st (bucketLabel c)) st, 0 < kv.2 by
        exact h rows [] (by simp)
      intro l
      induction l with
      | nil => intro st hst kv hkv; exact hst kv hkv
      | cons c rest ih =>
        intro st hst kv hkv
        refine ih (bumpCount st (bucketLabel c)) ?_ kv hkv
        clear hkv ih
        induction st with
        | nil =>
          intro kv hkv
          simp [bumpCount] at hkv
          simp [hkv]
        | cons hd tl ihs =>
          intro kv hkv
          obtain ⟨k0, v⟩ := hd
          unfold bumpCount at hkv
          by_cases hk : (k0 == bucketLabel c) = true
          · rw [if_pos hk] at hkv
            rcases List.mem_cons.mp hkv with rfl | hmem
            · simp
            · exact hst _ (List.mem_cons_of_mem _ hmem)
          · rw [if_neg hk] at hkv
            rcases List.mem_cons.mp hkv with rfl | hmem
            · exact hst _ (List.mem_cons_self _ _)
            · exact ihs (fun x hx => hst x (List.mem_cons_of_mem _ hx)) _ hmem
    unfold get_community_progress at hb
    by_cases h : rows.length == 0
    · rw [if_pos h] at hb; simp at hb
    · rw [if_neg h] at hb
      have hb2 : b ∈ (groupStats rows).map
          (fun kv => (⟨kv.1, kv.2, pctTenths kv.2 rows.length⟩ : BucketStat)) :=
        (List.mem_insertionSort statLE).mp hb
      rcases List.mem_map.mp hb2 with ⟨kv, hkv, rfl⟩
      exact ⟨hpos kv hkv, rfl⟩

/-- Witness for C8's general part at a concrete input. -/
theorem C8_cohort_stats_witness :
    get_community_progress [0, 2, -1] =
      [⟨"Not Started", 1, 333⟩, ⟨"Chapters 1-2", 1, 333⟩, ⟨"Completed", 1, 333⟩]
    ∧ 0 < (⟨"Not Started", 1, 333⟩ : BucketStat).member_count
    ∧ (⟨"Not Started", 1, 333⟩ : BucketStat).percentage =
        pctTenths (⟨"Not Started", 1, 333⟩ : BucketStat).member_count [(0 : Int), 2, -1].length := by
  have h := C8_cohort_stats
  have h2 := h.2 [0, 2, -1] ⟨"Not Started", 1, 333⟩ (by rw [h.1]; simp)
  exact ⟨h.1, h2.1, h2.2⟩

-- ===== POST /auth/verify-code =====
-- (src/app/routers/auth.py, verify_code, lines 71-121)

/-- Error response of `verify_code`: HTTP status plus the only
code-dependent information in the detail message, the expected code
length (`some n` for the "should be n characters long" message, `none`
for the generic messages). -/
structure VerifyErr where
  status : Nat
  revealedLen : Option Nat
deriving DecidableEq, Repr

/-- Result of a `verify_code` request: the response and the session's
`code_verified` flag afterwards. -/
structure VerifyOutcome where
  response : Except VerifyErr Unit
  code_verified : Bool
deriving Repr

/-- Embedding of `verify_code`: strip the submitted code; empty → 400; no
stored AccessCode row → 500; compare lowercased (the constant-time
`secrets.compare_digest` decides string equality); on mismatch → 400,
with the expected length in the message only when the lengths differ; on
match set `code_verified` in the session.  An HTTPException leaves the
session flag as it was. -/
def verify_code (submitted : String) (stored : Option String) (code_verified : Bool) :
    VerifyOutcome :=
  let code := pyStrip submitted
  if code == "" then ⟨.error ⟨400, none⟩, code_verified⟩
  else
    match stored with
    | none => ⟨.error ⟨500, none⟩, code_verified⟩
    | some sc =>
      if pyLower code == pyLower sc then ⟨.ok (), true⟩
      else if code.length == sc.length then ⟨.error ⟨400, none⟩, code_verified⟩
      else ⟨.error ⟨400, some sc.length⟩, code_verified⟩

theorem pyLower_eq_empty_iff (t : String) : pyLower t = "" ↔ t = "" := by
  cases t with
  | mk d =>
    unfold pyLower
    cases d with
    | nil => simp
    | cons a l =>
      constructor
      · intro h
        exact absurd (congrArg String.data h) (by simp)
      · intro h
        exact absurd (congrArg String.data h) (by simp)

/-- Counterexample to claim C9 as universally stated: with the stored
access code "" (the admin code-update endpoint does not validate
non-emptiness) and the submission " ", the stripped submission equals the
stored code case-insensitively, yet verification does not succeed: the
empty-input branch fires first, returning 400 and leaving the session
unmarked. -/
theorem C9_empty_stored_code_counterexample :
    pyLower (pyStrip " ") = pyLower ""
    ∧ (verify_code " " (some "") false).response = .error ⟨400, none⟩
    ∧ (verify_code " " (some "") false).code_verified = false := by
  exact ⟨rfl, rfl, rfl⟩

/-- Claim C9 (amended to non-empty stored codes): with a non-empty stored
access code, `verify_code` succeeds
(and sets `code_verified`) iff the submitted code, stripped, equals the
stored code case-insensitively; otherwise it fails with HTTP 400,
leaves `code_verified` as it was, and reveals at most the expected code
length, and that only when the stripped submitted length differs from
the stored length. -/
theorem C9_verify_code (submitted sc : String) (cv : Bool) (hsc : sc ≠ "") :
    (verify_code submitted (some sc) cv = ⟨.ok (), true⟩ ↔
      pyLower (pyStrip submitted) = pyLower sc)
    ∧ (pyLower (pyStrip submitted) ≠ pyLower sc →
        ∃ e, verify_code submitted (some sc) cv = ⟨.error e, cv⟩ ∧ e.status = 400 ∧
          (e.revealedLen = none ∨
            (e.revealedLen = some sc.length ∧ (pyStrip submitted).length ≠ sc.length))) := by
  have hscl : pyLower sc ≠ "" := fun h => hsc ((pyLower_eq_empty_iff sc).mp h)
  by_cases hemp : (pyStrip submitted == "") = true
  · have hempty : pyStrip submitted = "" := by simpa using hemp
    constructor
    · constructor
      · intro h
        exfalso
        unfold verify_code at h
        rw [if_pos hemp] at h
        simp at h
      · intro h
        rw [hempty] at h
        exact absurd h.symm hscl
    · intro _
      refine ⟨⟨400, none⟩, ?_, rfl, Or.inl rfl⟩
      unfold verify_code
      rw [if_pos hemp]
  · by_cases hmatch : (pyLower (pyStrip submitted) == pyLower sc) = true
    · have hm : pyLower (pyStrip submitted) = pyLower sc := by simpa using hmatch
      constructor
      · constructor
        · intro _; exact hm
        · intro _
          unfold verify_code
          rw [if_neg hemp]
          simp only [hmatch, if_true]
      · intro h; exact absurd hm h
    · have hm : pyLower (pyStrip submitted) ≠ pyLower sc := by simpa using hmatch
      constructor
      · constructor
        · intro h
          exfalso
          unfold verify_code at h
          rw [if_neg hemp] at h
          simp only [hmatch, Bool.false_eq_true, if_false] at h
          by_cases hlen : ((pyStrip submitted).length == sc.length) = true
          · rw [if_pos hlen] at h; simp at h
          · rw [if_neg hlen] at h; simp at h
        · intro h; exact absurd h hm
      · intro _
        unfold verify_code
        rw [if_neg hemp]
        simp only [hmatch, Bool.false_eq_true, if_false]
        by_cases hlen : ((pyStrip submitted).length == sc.length) = true
        · rw [if_pos hlen]
          exact ⟨⟨400, none⟩, rfl, rfl, Or.inl rfl⟩
        · rw [if_neg hlen]
          exact ⟨⟨400, some sc.length⟩, rfl, rfl, Or.inr ⟨rfl, by simpa using hlen⟩⟩

/-- Witness for C9 at the spec's scenario: stored code "TEST2024";
submitting " test2024 " succeeds and marks the session, submitting
"WRONG" fails with 400 and does not mark the session. -/
theorem C9_verify_code_witness :
    verify_code " test2024 " (some "TEST2024") false = ⟨.ok (), true⟩
    ∧ ∃ e, verify_code "WRONG" (some "TEST2024") false = ⟨.error e, false⟩ ∧ e.status = 400 ∧
        (e.revealedLen = none ∨
          (e.revealedLen = some "TEST2024".length ∧ (pyStrip "WRONG").length ≠ "TEST2024".length)) := by
  constructor
  · exact (C9_verify_code " test2024 " "TEST2024" false (by decide)).1.mpr (by decide)
  · exact (C9_verify_code "WRONG" "TEST2024" false (by decide)).2 (by decide)

end BookClub
